import Mathlib

/-!
Verification of the BadgerDB buffer pool manager
(`src/BufMgr/src/buffer_modified.cpp`) against its natural-language
specification.

The C++ source is shallowly embedded: the manager state (frame descriptor
table, page pool, page index, clock hand) becomes a Lean structure, each
member function becomes a pure function from the state to a result record
carrying the new state, the values of the reference out-parameters, the
sequence of calls made to the external `File` collaborator, and the
exception (if any) that the call raises.  Machine integers of the source
(`std::uint32_t` frame ids, page ids, pin counts) are modelled as `Nat`:
none of the verified behaviours involve wraparound.

`buffer.h` (the `BufDesc` record with `Clear`/`Set`) and the concrete
`BufHashTbl` are not part of the sources; they are modelled from the
specification (sections 3, 4.1 and 6), as marked on each definition.
-/

deriving instance DecidableEq for Except

namespace BadgerDB

/-- Modelled from the spec: the in-memory page representation (`Page`,
file.h is not in the sources) is "an opaque fixed-size byte container
identified by a page number"; only the embedded page number is observable
through the manager, so the model keeps just that. -/
structure Page where
  page_number : Nat
deriving DecidableEq, Repr

instance : Inhabited Page := ⟨⟨0⟩⟩

/-- Modelled from the spec: one entry of the frame descriptor table
(`BufDesc`, buffer.h is not in the sources).  Section 3: attributes are the
owning file (a non-owning reference, `none` when cleared), the page number,
and the `valid`/`dirty`/`refBit`/`pinCount` fields.  The stable `frameNo`
is the index into the table and is not duplicated here. -/
structure BufDesc where
  fileId : Option Nat
  pageNo : Nat
  valid : Bool
  refbit : Bool
  dirty : Bool
  pinCnt : Nat
deriving DecidableEq, Repr

/-- The fully reset frame descriptor (spec section 4.1: `reset` sets
`valid=false, dirty=false, refBit=false, pinCount=0` and clears the
file/page identity). -/
def BufDesc.clear0 : BufDesc :=
  { fileId := none, pageNo := 0, valid := false, refbit := false, dirty := false, pinCnt := 0 }

instance : Inhabited BufDesc := ⟨BufDesc.clear0⟩

/-- Modelled from the spec: `BufDesc::Clear` (buffer.h is not in the
sources), spec section 4.1 `reset(frame)`. -/
def BufDesc.Clear (_d : BufDesc) : BufDesc := BufDesc.clear0

/-- Modelled from the spec: `BufDesc::Set` (buffer.h is not in the
sources), spec section 4.1 `install(frame, file, pageNumber)`: sets
`owningFile`, `pageNumber`, `valid=true`, `refBit=true`, `pinCount=1`. -/
def BufDesc.Set (d : BufDesc) (file : Nat) (pageNum : Nat) : BufDesc :=
  { d with fileId := some file, pageNo := pageNum, valid := true, refbit := true, pinCnt := 1 }

/-- Modelled from the spec: the page index (`BufHashTbl`, not in the
sources) is an exact-match directory from (file identity, page number) to
frame id (spec sections 3 and 6).  An association list; the file component
is `Option Nat` because eviction inside `allocBuf` keys the removal by the
frame's stored (possibly cleared) file reference. -/
abbrev HashTbl := List ((Option Nat × Nat) × Nat)

/-- Modelled from the spec: `lookup(fileIdentity, pageNumber) → frameId`,
`none` meaning the `HashNotFoundException` signal. -/
def htLookup : HashTbl → Option Nat → Nat → Option Nat
  | [], _, _ => none
  | (k, fr) :: rest, f, p => if k = (f, p) then some fr else htLookup rest f p

/-- Modelled from the spec: `insert(fileIdentity, pageNumber, frameId)`. -/
def htInsert (t : HashTbl) (f : Option Nat) (p : Nat) (fr : Nat) : HashTbl :=
  ((f, p), fr) :: t

/-- Modelled from the spec: `remove(fileIdentity, pageNumber)`. -/
def htRemove (t : HashTbl) (f : Option Nat) (p : Nat) : HashTbl :=
  t.filter (fun e => !decide (e.1 = (f, p)))

/-- The error kinds a manager operation can raise
(`BufferExceededException`, `PageNotPinnedException`,
`PagePinnedException`, `BadBufferException`), with the data each carries in
the source.  The internal `HashNotFoundException` never escapes a member
function and is represented by the `none` result of `htLookup`. -/
inductive BufError where
  | bufferExceeded
  | pageNotPinned (fileId pageNo frameNo : Nat)
  | pagePinned (fileId pageNo frameNo : Nat)
  | badBuffer (frameNo : Nat) (dirty valid refbit : Bool)
deriving DecidableEq, Repr

/-- The public error kinds of the spec (section 7): `PoolExhausted`,
`PageNotPinned` and `PagePinned` are the only kinds allowed to cross the
manager's boundary; `BadBufferException` is not among them. -/
def BufError.isPublicKind : BufError → Bool
  | .bufferExceeded => true
  | .pageNotPinned _ _ _ => true
  | .pagePinned _ _ _ => true
  | .badBuffer _ _ _ _ => false

/-- A call made to the external `File` collaborator, recorded in program
order: disk reads and writes, page allocation and deletion. -/
inductive FileOp where
  | read (fileId : Option Nat) (pageNo : Nat)
  | write (fileId : Option Nat) (pageNo : Nat)
  | alloc (fileId : Option Nat) (pageNo : Nat)
  | delete (fileId : Option Nat) (pageNo : Nat)
deriving DecidableEq, Repr

/-- The `BufMgr` object state: pool capacity `numBufs`, the `BufDesc`
table, the parallel `bufPool` page array, the page index and the clock
hand (`buffer_modified.cpp`, constructor at lines 24-41). -/
structure BufMgr where
  numBufs : Nat
  bufDescTable : List BufDesc
  bufPool : List Page
  hashTable : HashTbl
  clockHand : Nat
deriving DecidableEq, Repr

/-- `bufDescTable[i]`; out-of-range reads return the cleared descriptor
(never reached from the manager's own call sites). -/
def getDesc (s : BufMgr) (i : Nat) : BufDesc :=
  s.bufDescTable.getD i default

/-- `bufDescTable[i] = d`. -/
def setDesc (s : BufMgr) (i : Nat) (d : BufDesc) : BufMgr :=
  { s with bufDescTable := s.bufDescTable.set i d }

/-- `bufPool[i]`. -/
def getPage (s : BufMgr) (i : Nat) : Page :=
  s.bufPool.getD i default

/-- `BufMgr::BufMgr(bufs)` (lines 24-41): all descriptors start invalid
(and, per the spec section 3 invariant carried by the modelled `BufDesc`
constructor, fully cleared), the pool is allocated, the index is empty and
`clockHand = bufs - 1`. -/
def BufMgr.init (bufs : Nat) : BufMgr :=
  { numBufs := bufs
  , bufDescTable := List.replicate bufs BufDesc.clear0
  , bufPool := List.replicate bufs default
  , hashTable := []
  , clockHand := bufs - 1 }

/-- `BufMgr::advanceClock()` (lines 73-76). -/
def BufMgr.advanceClock (s : BufMgr) : BufMgr :=
  { s with clockHand := (s.clockHand + 1) % s.numBufs }

/-- Result of `BufMgr::allocBuf`: the object state after the call, the file
calls made, and either the frame id assigned to the `frame` out-parameter
or the raised exception. -/
structure AllocBufResult where
  st : BufMgr
  trace : List FileOp
  res : Except BufError Nat
deriving DecidableEq, Repr

/-- The body executed when the clock scan stops at a valid, unreferenced,
unpinned frame (lines 109-119 followed by 122-126): write the page back if
dirty and clear `dirty`, remove the frame's index entry, `Clear()` the
descriptor, and return the clock hand. -/
def allocBufVictim (s : BufMgr) : AllocBufResult :=
  let d := getDesc s s.clockHand
  let s1 := if d.dirty then setDesc s s.clockHand { d with dirty := false } else s
  let t1 := if d.dirty then [FileOp.write d.fileId (getPage s s.clockHand).page_number] else []
  let s2 := { s1 with hashTable := htRemove s1.hashTable d.fileId d.pageNo }
  ⟨setDesc s2 s.clockHand ((getDesc s2 s.clockHand).Clear), t1, .ok s.clockHand⟩

/-- The `while (bufDescTable[clockHand].valid)` loop of `BufMgr::allocBuf`
(lines 88-120) plus the code after the loop (lines 122-126).  `pinned` is
the local counter of visits to pinned frames; the loop exits with the
victim when the hand reaches an invalid frame, or via `break` at a valid,
unreferenced, unpinned frame.  The loop is given explicit fuel to make the
definition structurally recursive; every iteration either clears one of
the at most `numBufs` set reference bits or increments `pinned`, which
raises `BufferExceededException` on reaching `numBufs`, so for a
well-formed state the loop finishes within `2 * numBufs + 1` steps and the
`none` (fuel exhausted) result is never returned by `BufMgr.allocBuf`
below. -/
def allocBufLoop : Nat → BufMgr → Nat → Option AllocBufResult
  | 0, _, _ => none
  | fuel + 1, s, pinned =>
    if (getDesc s s.clockHand).valid then
      if (getDesc s s.clockHand).refbit then
        allocBufLoop fuel
          (BufMgr.advanceClock
            (setDesc s s.clockHand { getDesc s s.clockHand with refbit := false })) pinned
      else if (getDesc s s.clockHand).pinCnt ≠ 0 then
        if pinned + 1 = s.numBufs then some ⟨s, [], .error .bufferExceeded⟩
        else allocBufLoop fuel (BufMgr.advanceClock s) (pinned + 1)
      else
        some (allocBufVictim s)
    else
      some ⟨setDesc s s.clockHand ((getDesc s s.clockHand).Clear), [], .ok s.clockHand⟩

/-- `BufMgr::allocBuf(frame)` (lines 82-127): `pinned = 0`, one
`advanceClock()`, then the scan loop.  The `getD` default is dead code for
well-formed states (see `allocBufLoop`). -/
def BufMgr.allocBuf (s : BufMgr) : AllocBufResult :=
  (allocBufLoop (2 * s.numBufs + 1) (BufMgr.advanceClock s) 0).getD
    ⟨s, [], .error .bufferExceeded⟩

/-- Result of `BufMgr::readPage`: state, final value of the `page`
out-parameter (the caller's incoming pointer value when the function never
assigns it), file calls, and the raised exception if any. -/
structure RWResult where
  st : BufMgr
  page : Option Nat
  trace : List FileOp
  res : Except BufError Unit
deriving DecidableEq, Repr

/-- `BufMgr::readPage(file, pageNo, page)` (lines 138-168).  On an index
hit the source sets `refbit`, increments `pinCnt` and executes `return;`
(line 149) — before the `page = &bufPool[frameId]` assignment at line 167,
so the out-parameter keeps the caller's incoming value `pageIn`.  On a
miss it allocates a victim frame, reads the page from the file, stores it
in the pool, inserts the index entry, `Set`s the descriptor and assigns
the out-parameter. -/
def BufMgr.readPage (s : BufMgr) (file pageNo : Nat) (pageIn : Option Nat) : RWResult :=
  match htLookup s.hashTable (some file) pageNo with
  | some frameId =>
    ⟨setDesc s frameId
       { getDesc s frameId with refbit := true, pinCnt := (getDesc s frameId).pinCnt + 1 }
    , pageIn, [], .ok ()⟩
  | none =>
    let r := s.allocBuf
    match r.res with
    | .error e => ⟨r.st, pageIn, r.trace, .error e⟩
    | .ok frameId =>
      let s2 := { r.st with bufPool := r.st.bufPool.set frameId ⟨pageNo⟩ }
      let s3 := { s2 with hashTable := htInsert s2.hashTable (some file) pageNo frameId }
      ⟨setDesc s3 frameId ((getDesc s3 frameId).Set file pageNo)
      , some frameId, r.trace ++ [FileOp.read (some file) pageNo], .ok ()⟩

/-- Result of `BufMgr::unPinPage`: state and raised exception if any (the
function makes no file calls). -/
structure UnpinResult where
  st : BufMgr
  res : Except BufError Unit
deriving DecidableEq, Repr

/-- `BufMgr::unPinPage(file, pageNo, dirty)` (lines 178-202): index miss is
silently absorbed; a found frame with `pinCnt == 0` raises
`PageNotPinnedException`; otherwise the pin count is decremented and, when
`dirty` is passed, the dirty bit is set. -/
def BufMgr.unPinPage (s : BufMgr) (file pageNo : Nat) (dirty : Bool) : UnpinResult :=
  match htLookup s.hashTable (some file) pageNo with
  | none => ⟨s, .ok ()⟩
  | some frameId =>
    if (getDesc s frameId).pinCnt = 0 then
      ⟨s, .error (.pageNotPinned file pageNo frameId)⟩
    else
      ⟨setDesc s frameId
         (if dirty then
            { getDesc s frameId with pinCnt := (getDesc s frameId).pinCnt - 1, dirty := true }
          else
            { getDesc s frameId with pinCnt := (getDesc s frameId).pinCnt - 1 })
      , .ok ()⟩

/-- Result of `BufMgr::flushFile`: state, file calls, raised exception. -/
structure FlushResult where
  st : BufMgr
  trace : List FileOp
  res : Except BufError Unit
deriving DecidableEq, Repr

/-- The body of the `for` loop of `BufMgr::flushFile` (lines 215-244),
iterated over the remaining frame indices.  For a frame whose stored file
reference equals the argument: a nonzero pin count raises
`PagePinnedException`; then — as written at line 227 of the source — a
*valid* frame raises `BadBufferException`; otherwise the frame is written
back if dirty, its index entry removed and its descriptor cleared. -/
def flushLoop (file : Nat) : List Nat → BufMgr → List FileOp → FlushResult
  | [], s, t => ⟨s, t, .ok ()⟩
  | i :: rest, s, t =>
    if (getDesc s i).fileId = some file then
      if (getDesc s i).pinCnt ≠ 0 then
        ⟨s, t, .error (.pagePinned file (getDesc s i).pageNo i)⟩
      else if (getDesc s i).valid then
        ⟨s, t, .error (.badBuffer i (getDesc s i).dirty (getDesc s i).valid (getDesc s i).refbit)⟩
      else
        let d := getDesc s i
        let s1 := if d.dirty then setDesc s i { d with dirty := false } else s
        let t1 := if d.dirty then [FileOp.write d.fileId (getPage s i).page_number] else []
        let s2 := { s1 with hashTable := htRemove s1.hashTable (some file) d.pageNo }
        flushLoop file rest (setDesc s2 i ((getDesc s2 i).Clear)) (t ++ t1)
    else
      flushLoop file rest s t

/-- `BufMgr::flushFile(file)` (lines 213-245). -/
def BufMgr.flushFile (s : BufMgr) (file : Nat) : FlushResult :=
  flushLoop file (List.range s.numBufs) s []

/-- Result of `BufMgr::allocPage`: state, final value of the `pageNo`
out-parameter, final value of the `page` out-parameter, file calls, raised
exception. -/
structure AllocPageResult where
  st : BufMgr
  pageNo : Nat
  page : Option Nat
  trace : List FileOp
  res : Except BufError Unit
deriving DecidableEq, Repr

/-- `BufMgr::allocPage(file, pageNo, page)` (lines 255-272).  `pageNoIn`
is the incoming value of the by-reference `pageNo` parameter and
`newPageNo` the fresh number assigned by the external
`file->allocatePage()`.  The source inserts the index entry and `Set`s the
descriptor with the *incoming* `pageNo` (lines 266-267) and only then
assigns `pageNo = new_page.page_number()` (line 270). -/
def BufMgr.allocPage (s : BufMgr) (file pageNoIn : Nat) (pageIn : Option Nat)
    (newPageNo : Nat) : AllocPageResult :=
  let tAlloc := [FileOp.alloc (some file) newPageNo]
  let r := s.allocBuf
  match r.res with
  | .error e => ⟨r.st, pageNoIn, pageIn, tAlloc ++ r.trace, .error e⟩
  | .ok frameId =>
    let s2 := { r.st with bufPool := r.st.bufPool.set frameId ⟨newPageNo⟩ }
    let s3 := { s2 with hashTable := htInsert s2.hashTable (some file) pageNoIn frameId }
    ⟨setDesc s3 frameId ((getDesc s3 frameId).Set file pageNoIn)
    , newPageNo, some frameId, tAlloc ++ r.trace, .ok ()⟩

/-- Result of `BufMgr::disposePage`: state and file calls (the function
raises nothing). -/
structure DisposeResult where
  st : BufMgr
  trace : List FileOp
deriving DecidableEq, Repr

/-- `BufMgr::disposePage(file, PageNo)` (lines 281-300): if cached, remove
the index entry and clear the frame (the miss is absorbed); in either case
call `file->deletePage(PageNo)`. -/
def BufMgr.disposePage (s : BufMgr) (file pageNo : Nat) : DisposeResult :=
  match htLookup s.hashTable (some file) pageNo with
  | some frameNo =>
    let s1 := { s with hashTable := htRemove s.hashTable (some file) pageNo }
    ⟨setDesc s1 frameNo ((getDesc s1 frameNo).Clear), [FileOp.delete (some file) pageNo]⟩
  | none => ⟨s, [FileOp.delete (some file) pageNo]⟩

/-! ## States reached by concrete operation sequences

Each state below is produced by running public manager operations from a
freshly constructed pool, so every one of them is reachable behaviour of
the source program. -/

/-- Pool of size 1 after `readPage(file 0, page 5)`: the page is cached in
frame 0 with `pinCnt = 1`. -/
def cachedOne : BufMgr := ((BufMgr.init 1).readPage 0 5 none).st

/-- `cachedOne` after `unPinPage(file 0, page 5, false)`: cached, pin count
zero. -/
def cachedOneUnpinned : BufMgr := (cachedOne.unPinPage 0 5 false).st

/-- Pool of size 2 after fetching pages 1 and 2 of file 0 (both pinned). -/
def pool2BothPinned : BufMgr :=
  (((BufMgr.init 2).readPage 0 1 none).st.readPage 0 2 none).st

/-- `pool2BothPinned` after unpinning page 1: frame 0 holds page 1
unpinned and valid, frame 1 holds page 2 still pinned. -/
def pool2OnePinned : BufMgr := (pool2BothPinned.unPinPage 0 1 false).st

/-- Pool of size 3 after fetching pages 1, 2, 3 of file 0. -/
def pool3Fetched : BufMgr :=
  ((((BufMgr.init 3).readPage 0 1 none).st.readPage 0 2 none).st.readPage 0 3 none).st

/-- `pool3Fetched` with all three pages unpinned. -/
def pool3Unpinned : BufMgr :=
  (((pool3Fetched.unPinPage 0 1 false).st.unPinPage 0 2 false).st.unPinPage 0 3 false).st

/-- `pool3Unpinned` after fetching page 4 (evicts page 1, installs page 4
in frame 0, clock hand rests on frame 0). -/
def pool3P4 : BufMgr := (pool3Unpinned.readPage 0 4 none).st

/-- `pool3P4` after re-fetching pages 2 and 3 (index hits, frames 1 and 2
pinned again) and unpinning page 4. -/
def pool3Repinned : BufMgr :=
  (((pool3P4.readPage 0 2 none).st.readPage 0 3 none).st.unPinPage 0 4 false).st

/-- `pool3Repinned` after fetching page 5 (the sweep clears every refbit,
then evicts page 4 from frame 0) and unpinning it: frame 0 holds page 5
valid, unpinned, `refbit` set; frames 1 and 2 are pinned with clear
refbits; the clock hand rests on frame 0.  Only 2 of the 3 frames are
pinned. -/
def pool3TwoPinned : BufMgr :=
  ((pool3Repinned.readPage 0 5 none).st.unPinPage 0 5 false).st

/-! ## Invariants and reachable states -/

/-- Structural well-formedness of a manager state: the descriptor table
has exactly `numBufs` entries, the pool is non-empty, and the clock hand
is in range. -/
def WFState (s : BufMgr) : Prop :=
  s.bufDescTable.length = s.numBufs ∧ 0 < s.numBufs ∧ s.clockHand < s.numBufs

/-- Spec section 3 invariant on frames: an invalid frame has pin count
zero. -/
def InvPin (s : BufMgr) : Prop :=
  ∀ i, (getDesc s i).valid = false → (getDesc s i).pinCnt = 0

/-- Spec section 3 invariant on the page index: every entry the lookup can
return points to a valid frame that still records exactly that key. -/
def InvHash (s : BufMgr) : Prop :=
  ∀ f p fr, htLookup s.hashTable f p = some fr →
    (getDesc s fr).valid = true ∧ (getDesc s fr).fileId = f ∧ (getDesc s fr).pageNo = p

/-- The combined state invariant maintained by every manager operation. -/
def Inv (s : BufMgr) : Prop := WFState s ∧ InvPin s ∧ InvHash s

/-- The states reachable through the public manager interface: a freshly
constructed pool of positive capacity, closed under `readPage`,
`unPinPage`, `allocPage`, `flushFile` and `disposePage` — including calls
that raise an exception, since the C++ object survives a throw. -/
inductive Reachable : BufMgr → Prop where
  | init (n : Nat) (h : 0 < n) : Reachable (BufMgr.init n)
  | read (s : BufMgr) (f p : Nat) (pi : Option Nat) :
      Reachable s → Reachable (BufMgr.readPage s f p pi).st
  | unpin (s : BufMgr) (f p : Nat) (d : Bool) :
      Reachable s → Reachable (BufMgr.unPinPage s f p d).st
  | allocP (s : BufMgr) (f ki : Nat) (pi : Option Nat) (np : Nat) :
      Reachable s → Reachable (BufMgr.allocPage s f ki pi np).st
  | flush (s : BufMgr) (f : Nat) :
      Reachable s → Reachable (BufMgr.flushFile s f).st
  | dispose (s : BufMgr) (f p : Nat) :
      Reachable s → Reachable (BufMgr.disposePage s f p).st

/-- One step of the pin-accounting experiment of the spec (section 8):
either a `fetchPage` or an `unpinPage` on one fixed (file, page). -/
inductive PinOp where
  | fetch
  | unpin
deriving DecidableEq, Repr

/-- Run a sequence of `fetchPage` / `unpinPage(markDirty=false)` calls on
the fixed key (`f`, `p`), stopping with `none` as soon as a call raises an
exception. -/
def runPinOps (f p : Nat) : List PinOp → BufMgr → Option BufMgr
  | [], s => some s
  | PinOp.fetch :: rest, s =>
    match BufMgr.readPage s f p none with
    | ⟨s1, _, _, .ok _⟩ => runPinOps f p rest s1
    | ⟨_, _, _, .error _⟩ => none
  | PinOp.unpin :: rest, s =>
    match BufMgr.unPinPage s f p false with
    | ⟨s1, .ok _⟩ => runPinOps f p rest s1
    | ⟨_, .error _⟩ => none

/-- The number of occurrences of one kind of step in a pin-accounting
experiment (the "#fetches" and "#unpins" of the spec, section 8). -/
def countOp (o : PinOp) : List PinOp → Nat
  | [] => 0
  | x :: rest => (if x = o then 1 else 0) + countOp o rest

/-! ## Helper lemmas about the table and index primitives -/

theorem bd_getD_set_self {α : Type} (l : List α) (i : Nat) (a d : α) (h : i < l.length) :
    (l.set i a).getD i d = a := by
  induction l generalizing i with
  | nil => simp at h
  | cons x xs ih =>
    cases i with
    | zero => rfl
    | succ n => simpa using ih n (by simpa using h)

theorem bd_getD_set_ne {α : Type} (l : List α) (i j : Nat) (a d : α) (h : i ≠ j) :
    (l.set i a).getD j d = l.getD j d := by
  induction l generalizing i j with
  | nil => rfl
  | cons x xs ih =>
    cases i with
    | zero =>
      cases j with
      | zero => exact absurd rfl h
      | succ m => rfl
    | succ n =>
      cases j with
      | zero => rfl
      | succ m => simpa using ih n m (fun he => h (by rw [he]))

theorem getDesc_setDesc (s : BufMgr) (i j : Nat) (d : BufDesc) :
    getDesc (setDesc s i d) j =
      if j = i ∧ i < s.bufDescTable.length then d else getDesc s j := by
  by_cases hij : j = i
  · subst hij
    by_cases hlt : j < s.bufDescTable.length
    · simp only [hlt, and_true, if_pos rfl]
      exact bd_getD_set_self _ _ _ _ hlt
    · simp only [hlt, and_false, if_false]
      unfold getDesc setDesc
      rw [List.getD_eq_default, List.getD_eq_default]
      · omega
      · simpa using Nat.le_of_not_lt hlt
  · simp only [hij, false_and, if_false]
    exact bd_getD_set_ne _ _ _ _ _ (fun he => hij he.symm)

theorem setDesc_hashTable (s : BufMgr) (i : Nat) (d : BufDesc) :
    (setDesc s i d).hashTable = s.hashTable := rfl

theorem setDesc_numBufs (s : BufMgr) (i : Nat) (d : BufDesc) :
    (setDesc s i d).numBufs = s.numBufs := rfl

theorem setDesc_clockHand (s : BufMgr) (i : Nat) (d : BufDesc) :
    (setDesc s i d).clockHand = s.clockHand := rfl

theorem setDesc_length (s : BufMgr) (i : Nat) (d : BufDesc) :
    (setDesc s i d).bufDescTable.length = s.bufDescTable.length := by
  simp [setDesc]

theorem getDesc_advanceClock (s : BufMgr) (i : Nat) :
    getDesc (BufMgr.advanceClock s) i = getDesc s i := rfl

theorem htLookup_insert (t : HashTbl) (f : Option Nat) (p : Nat) (fr : Nat)
    (f' : Option Nat) (p' : Nat) :
    htLookup (htInsert t f p fr) f' p' =
      if (f, p) = (f', p') then some fr else htLookup t f' p' := rfl

theorem htLookup_remove (t : HashTbl) (f : Option Nat) (p : Nat) (f' : Option Nat) (p' : Nat) :
    htLookup (htRemove t f p) f' p' =
      if (f', p') = (f, p) then none else htLookup t f' p' := by
  induction t with
  | nil => simp [htRemove, htLookup, ite_self]
  | cons e rest ih =>
    obtain ⟨k, fr⟩ := e
    by_cases hk : k = (f, p)
    · subst hk
      have h1 : htRemove (((f, p), fr) :: rest) f p = htRemove rest f p := by
        simp [htRemove]
      rw [h1, ih]
      by_cases h2 : (f', p') = (f, p)
      · simp [h2]
      · have h3 : ¬((f, p) = (f', p')) := fun he => h2 he.symm
        simp [htLookup, h2, h3]
    · have h1 : htRemove ((k, fr) :: rest) f p = (k, fr) :: htRemove rest f p := by
        simp [htRemove, hk]
      rw [h1]
      by_cases h2 : k = (f', p')
      · have h3 : ¬((f', p') = (f, p)) := by
          intro he
          exact hk (h2.trans he)
        simp [htLookup, h2, h3]
      · simp only [htLookup, if_neg h2, ih]

/-! ## Preservation of the state invariant -/

theorem WFState_setDesc (s : BufMgr) (i : Nat) (d : BufDesc) (h : WFState s) :
    WFState (setDesc s i d) := by
  refine ⟨?_, h.2.1, h.2.2⟩
  rw [setDesc_length]
  exact h.1

theorem WFState_advanceClock (s : BufMgr) (h : WFState s) :
    WFState (BufMgr.advanceClock s) :=
  ⟨h.1, h.2.1, Nat.mod_lt _ h.2.1⟩

theorem Inv_advanceClock (s : BufMgr) (h : Inv s) : Inv (BufMgr.advanceClock s) :=
  ⟨WFState_advanceClock s h.1, h.2.1, h.2.2⟩

/-- A descriptor update that keeps `valid`, `pinCnt`, `fileId` and `pageNo`
(clearing a refbit or a dirty bit) preserves the invariant. -/
theorem Inv_setDesc_preserve (s : BufMgr) (i : Nat) (d' : BufDesc)
    (hv : d'.valid = (getDesc s i).valid) (hp : d'.pinCnt = (getDesc s i).pinCnt)
    (hf : d'.fileId = (getDesc s i).fileId) (hn : d'.pageNo = (getDesc s i).pageNo)
    (h : Inv s) : Inv (setDesc s i d') := by
  refine ⟨WFState_setDesc s i d' h.1, ?_, ?_⟩
  · intro j
    rw [getDesc_setDesc]
    split
    · next hji =>
      rw [hv, hp, ← hji.1]
      exact h.2.1 j
    · exact h.2.1 j
  · intro f p fr hl
    rw [setDesc_hashTable] at hl
    have hprops := h.2.2 f p fr hl
    rw [getDesc_setDesc]
    split
    · next hji =>
      rw [hv, hf, hn, ← hji.1]
      exact hprops
    · exact hprops

/-- A descriptor update that makes (or keeps) a frame valid and keeps its
identity fields (a pin, refbit or dirty change on a cached frame)
preserves the invariant. -/
theorem Inv_setDesc_validKeep (s : BufMgr) (i : Nat) (d' : BufDesc)
    (hv : d'.valid = true)
    (hf : d'.fileId = (getDesc s i).fileId) (hn : d'.pageNo = (getDesc s i).pageNo)
    (h : Inv s) : Inv (setDesc s i d') := by
  refine ⟨WFState_setDesc s i d' h.1, ?_, ?_⟩
  · intro j
    rw [getDesc_setDesc]
    split
    · rw [hv]
      intro hcontra
      exact absurd hcontra (by simp)
    · exact h.2.1 j
  · intro f p fr hl
    rw [setDesc_hashTable] at hl
    have hprops := h.2.2 f p fr hl
    rw [getDesc_setDesc]
    split
    · next hji =>
      rw [hv, hf, hn, ← hji.1]
      exact ⟨rfl, hprops.2.1, hprops.2.2⟩
    · exact hprops

/-- Removing any one key from the index preserves the invariant. -/
theorem Inv_removeKey (s : BufMgr) (f : Option Nat) (p : Nat) (h : Inv s) :
    Inv { s with hashTable := htRemove s.hashTable f p } := by
  refine ⟨h.1, h.2.1, ?_⟩
  intro f' p' fr hl
  rw [show ({ s with hashTable := htRemove s.hashTable f p } : BufMgr).hashTable
        = htRemove s.hashTable f p from rfl, htLookup_remove] at hl
  split at hl
  · exact absurd hl (by simp)
  · exact h.2.2 f' p' fr hl

/-- Clearing a frame that no index entry can reach preserves the
invariant. -/
theorem Inv_clearFrame (s : BufMgr) (i : Nat)
    (hnoent : ∀ f p, htLookup s.hashTable f p ≠ some i) (h : Inv s) :
    Inv (setDesc s i BufDesc.clear0) := by
  refine ⟨WFState_setDesc s i _ h.1, ?_, ?_⟩
  · intro j
    rw [getDesc_setDesc]
    split
    · intro _
      rfl
    · exact h.2.1 j
  · intro f p fr hl
    rw [setDesc_hashTable] at hl
    have hprops := h.2.2 f p fr hl
    have hfr : fr ≠ i := by
      intro he
      exact hnoent f p (he ▸ hl)
    rw [getDesc_setDesc]
    split
    · next hji => exact absurd hji.1 hfr
    · exact hprops

/-- After removing the key a frame records, no index entry can reach that
frame any more. -/
theorem noent_after_remove (s : BufMgr) (i : Nat) (h : Inv s) :
    ∀ f p, htLookup (htRemove s.hashTable (getDesc s i).fileId (getDesc s i).pageNo) f p ≠
      some i := by
  intro f p hl
  rw [htLookup_remove] at hl
  split at hl
  · exact absurd hl (by simp)
  · next hne =>
    have hprops := h.2.2 f p i hl
    exact hne (by rw [← hprops.2.1, ← hprops.2.2])

/-- No index entry can reach an invalid frame. -/
theorem noent_of_invalid (s : BufMgr) (i : Nat) (hinv : (getDesc s i).valid = false)
    (h : Inv s) : ∀ f p, htLookup s.hashTable f p ≠ some i := by
  intro f p hl
  have hprops := h.2.2 f p i hl
  rw [hinv] at hprops
  exact absurd hprops.1 (by simp)

/-- Installing a fresh page into an invalid in-range frame — store the
content, insert the index entry, `Set` the descriptor — preserves the
invariant.  This is the common tail of the miss path of `readPage` and of
`allocPage`. -/
theorem Inv_install (s : BufMgr) (fr file key : Nat) (pl : List Page)
    (h : Inv s) (hinv : (getDesc s fr).valid = false) (hlt : fr < s.numBufs) :
    Inv (setDesc
          { s with bufPool := pl, hashTable := htInsert s.hashTable (some file) key fr }
          fr (BufDesc.Set (getDesc s fr) file key)) := by
  have hlen : fr < s.bufDescTable.length := by
    rw [h.1.1]
    exact hlt
  have hget : ∀ j,
      getDesc (setDesc
        { s with bufPool := pl, hashTable := htInsert s.hashTable (some file) key fr }
        fr (BufDesc.Set (getDesc s fr) file key)) j =
      if j = fr then BufDesc.Set (getDesc s fr) file key else getDesc s j := by
    intro j
    rw [getDesc_setDesc]
    by_cases hj : j = fr
    · rw [if_pos ⟨hj, hlen⟩, if_pos hj]
    · rw [if_neg (fun hc => hj hc.1), if_neg hj]
      rfl
  refine ⟨⟨by rw [setDesc_length]; exact h.1.1, h.1.2.1, h.1.2.2⟩, ?_, ?_⟩
  · intro j
    rw [hget j]
    split
    · intro hcontra
      exact absurd hcontra (by simp [BufDesc.Set])
    · exact h.2.1 j
  · intro f' p' fr' hl
    rw [show (setDesc
          { s with bufPool := pl, hashTable := htInsert s.hashTable (some file) key fr }
          fr (BufDesc.Set (getDesc s fr) file key)).hashTable
        = htInsert s.hashTable (some file) key fr from rfl, htLookup_insert] at hl
    rw [hget fr']
    split at hl
    · next hkey =>
      have hfr' : fr' = fr := by
        injection hl with hl'
        exact hl'.symm
      have hk1 : some file = f' := congrArg Prod.fst hkey
      have hk2 : key = p' := congrArg Prod.snd hkey
      subst hfr'
      rw [if_pos rfl]
      exact ⟨rfl, hk1, hk2⟩
    · have hprops := h.2.2 f' p' fr' hl
      have hfr' : fr' ≠ fr := by
        intro he
        rw [he, hinv] at hprops
        exact absurd hprops.1 (by simp)
      rw [if_neg hfr']
      exact hprops

/-- Evicting the frame under the clock hand — when it is valid and
unpinned — preserves the invariant; the victim frame ends up cleared and
the frame id returned is the clock hand. -/
theorem allocBufVictim_ok (s : BufMgr) (hInv : Inv s) :
    Inv (allocBufVictim s).st ∧ (allocBufVictim s).st.numBufs = s.numBufs ∧
    (allocBufVictim s).res = .ok s.clockHand ∧
    getDesc (allocBufVictim s).st s.clockHand = BufDesc.clear0 := by
  have hInv1 : Inv (if (getDesc s s.clockHand).dirty then
      setDesc s s.clockHand { getDesc s s.clockHand with dirty := false } else s) := by
    split
    · exact Inv_setDesc_preserve s s.clockHand _ rfl rfl rfl rfl hInv
    · exact hInv
  have hfields : (getDesc (if (getDesc s s.clockHand).dirty then
        setDesc s s.clockHand { getDesc s s.clockHand with dirty := false } else s)
        s.clockHand).fileId = (getDesc s s.clockHand).fileId ∧
      (getDesc (if (getDesc s s.clockHand).dirty then
        setDesc s s.clockHand { getDesc s s.clockHand with dirty := false } else s)
        s.clockHand).pageNo = (getDesc s s.clockHand).pageNo := by
    split
    · rw [getDesc_setDesc]
      split
      · exact ⟨rfl, rfl⟩
      · exact ⟨rfl, rfl⟩
    · exact ⟨rfl, rfl⟩
  set s1 := if (getDesc s s.clockHand).dirty then
      setDesc s s.clockHand { getDesc s s.clockHand with dirty := false } else s with hs1
  have hch : s1.clockHand = s.clockHand := by
    rw [hs1]
    split
    · rw [setDesc_clockHand]
    · rfl
  have hnb1 : s1.numBufs = s.numBufs := by
    rw [hs1]
    split
    · rw [setDesc_numBufs]
    · rfl
  have hnoent : ∀ f p,
      htLookup (htRemove s1.hashTable (getDesc s s.clockHand).fileId
        (getDesc s s.clockHand).pageNo) f p ≠ some s.clockHand := by
    intro f p
    rw [← hfields.1, ← hfields.2]
    exact noent_after_remove s1 s.clockHand hInv1 f p
  have hInv2 : Inv { s1 with
      hashTable := (htRemove s1.hashTable (getDesc s s.clockHand).fileId
        (getDesc s s.clockHand).pageNo) } :=
    Inv_removeKey s1 _ _ hInv1
  have hInv3 : Inv (setDesc { s1 with
      hashTable := (htRemove s1.hashTable (getDesc s s.clockHand).fileId
        (getDesc s s.clockHand).pageNo) }
      s.clockHand BufDesc.clear0) := by
    apply Inv_clearFrame _ _ ?_ hInv2
    intro f p
    exact hnoent f p
  refine ⟨hInv3, ?_, rfl, ?_⟩
  · rw [show (allocBufVictim s).st.numBufs = s1.numBufs from rfl]
    exact hnb1
  · rw [show getDesc (allocBufVictim s).st s.clockHand
        = getDesc (setDesc { s1 with
            hashTable := (htRemove s1.hashTable (getDesc s s.clockHand).fileId
              (getDesc s s.clockHand).pageNo) }
            s.clockHand BufDesc.clear0) s.clockHand from rfl]
    rw [getDesc_setDesc]
    split
    · rfl
    · next hc =>
      unfold getDesc
      rw [List.getD_eq_default]
      · rfl
      · exact Nat.le_of_not_lt (fun hcc => hc ⟨rfl, hcc⟩)

/-- The clock-scan loop preserves the invariant, and any frame it returns
was unpinned in the state the loop started from, is cleared in the result
state, and is in range. -/
theorem allocBufLoop_ok (fuel : Nat) :
    ∀ (s : BufMgr) (pinned : Nat) (r : AllocBufResult),
      Inv s → allocBufLoop fuel s pinned = some r →
      Inv r.st ∧ r.st.numBufs = s.numBufs ∧
      ∀ fr, r.res = .ok fr →
        (getDesc s fr).pinCnt = 0 ∧ getDesc r.st fr = BufDesc.clear0 ∧ fr < s.numBufs := by
  induction fuel with
  | zero =>
    intro s pinned r _ hstep
    exact absurd hstep (by simp [allocBufLoop])
  | succ fuel ih =>
    intro s pinned r hInv hstep
    rw [allocBufLoop] at hstep
    by_cases hv : (getDesc s s.clockHand).valid
    · rw [if_pos hv] at hstep
      by_cases hr : (getDesc s s.clockHand).refbit
      · rw [if_pos hr] at hstep
        have hInv' : Inv (BufMgr.advanceClock
            (setDesc s s.clockHand { getDesc s s.clockHand with refbit := false })) :=
          Inv_advanceClock _ (Inv_setDesc_preserve s s.clockHand _ rfl rfl rfl rfl hInv)
        obtain ⟨h1, h2, h3⟩ := ih _ pinned r hInv' hstep
        refine ⟨h1, h2, ?_⟩
        intro fr hok
        obtain ⟨hpin, hclear, hlt⟩ := h3 fr hok
        refine ⟨?_, hclear, hlt⟩
        rw [getDesc_advanceClock, getDesc_setDesc] at hpin
        revert hpin
        split
        · next hji =>
          rw [hji.1]
          exact fun hp => hp
        · exact fun hp => hp
      · rw [if_neg hr] at hstep
        by_cases hp : (getDesc s s.clockHand).pinCnt ≠ 0
        · rw [if_pos hp] at hstep
          by_cases hfull : pinned + 1 = s.numBufs
          · rw [if_pos hfull] at hstep
            injection hstep with hstep
            subst hstep
            exact ⟨hInv, rfl, fun fr hok => absurd hok (by simp)⟩
          · rw [if_neg hfull] at hstep
            obtain ⟨h1, h2, h3⟩ := ih _ (pinned + 1) r (Inv_advanceClock s hInv) hstep
            exact ⟨h1, h2, fun fr hok => h3 fr hok⟩
        · rw [if_neg hp] at hstep
          injection hstep with hstep
          subst hstep
          have hpin0 : (getDesc s s.clockHand).pinCnt = 0 := by omega
          obtain ⟨h1, h2, h3, h4⟩ := allocBufVictim_ok s hInv
          refine ⟨h1, h2, ?_⟩
          intro fr hok
          rw [h3] at hok
          injection hok with hok
          subst hok
          exact ⟨hpin0, h4, hInv.1.2.2⟩
    · rw [if_neg hv] at hstep
      injection hstep with hstep
      subst hstep
      have hnoent := noent_of_invalid s s.clockHand (by simpa using hv) hInv
      have hInvC : Inv (setDesc s s.clockHand BufDesc.clear0) :=
        Inv_clearFrame s s.clockHand hnoent hInv
      refine ⟨hInvC, rfl, ?_⟩
      intro fr hok
      injection hok with hok
      subst hok
      refine ⟨hInv.2.1 s.clockHand (by simpa using hv), ?_, hInv.1.2.2⟩
      rw [show getDesc (setDesc s s.clockHand ((getDesc s s.clockHand).Clear)) s.clockHand
            = getDesc (setDesc s s.clockHand BufDesc.clear0) s.clockHand from rfl]
      rw [getDesc_setDesc]
      split
      · rfl
      · next hc =>
        unfold getDesc
        rw [List.getD_eq_default]
        · rfl
        · exact Nat.le_of_not_lt (fun hcc => hc ⟨rfl, hcc⟩)

/-- `BufMgr.allocBuf` preserves the invariant, and a frame it returns via
`.ok` was unpinned in the pre-state, is cleared in the post-state, and is
in range. -/
theorem allocBuf_ok (s : BufMgr) (h : Inv s) :
    Inv (s.allocBuf).st ∧ (s.allocBuf).st.numBufs = s.numBufs ∧
    ∀ fr, (s.allocBuf).res = .ok fr →
      (getDesc s fr).pinCnt = 0 ∧ getDesc (s.allocBuf).st fr = BufDesc.clear0 ∧
      fr < s.numBufs := by
  unfold BufMgr.allocBuf
  cases hstep : allocBufLoop (2 * s.numBufs + 1) (BufMgr.advanceClock s) 0 with
  | none =>
    refine ⟨h, rfl, ?_⟩
    intro fr hok
    exact absurd hok (by simp [Option.getD])
  | some r =>
    obtain ⟨h1, h2, h3⟩ := allocBufLoop_ok _ _ _ r (Inv_advanceClock s h) hstep
    exact ⟨h1, h2, fun fr hok => h3 fr hok⟩

/-- `BufMgr.readPage` preserves the invariant, on hits, misses and
failures alike. -/
theorem readPage_inv (s : BufMgr) (f p : Nat) (pin : Option Nat) (h : Inv s) :
    Inv (BufMgr.readPage s f p pin).st := by
  unfold BufMgr.readPage
  cases hl : htLookup s.hashTable (some f) p with
  | some fr =>
    exact Inv_setDesc_validKeep s fr _ (by simp [(h.2.2 _ _ _ hl).1]) rfl rfl h
  | none =>
    obtain ⟨hInvA, hnb, hprops⟩ := allocBuf_ok s h
    cases hres : (s.allocBuf).res with
    | error e => simpa [hres] using hInvA
    | ok fr =>
      obtain ⟨hpin, hclear, hlt⟩ := hprops fr hres
      simp only [hres]
      exact Inv_install (s.allocBuf).st fr f p _ hInvA (by rw [hclear]; rfl) (by omega)

/-- `BufMgr.unPinPage` preserves the invariant. -/
theorem unPinPage_inv (s : BufMgr) (f p : Nat) (d : Bool) (h : Inv s) :
    Inv (BufMgr.unPinPage s f p d).st := by
  cases hl : htLookup s.hashTable (some f) p with
  | none =>
    have hred : BufMgr.unPinPage s f p d = ⟨s, .ok ()⟩ := by
      unfold BufMgr.unPinPage
      rw [hl]
    rw [hred]
    exact h
  | some fr =>
    have hred : BufMgr.unPinPage s f p d =
        if (getDesc s fr).pinCnt = 0 then ⟨s, .error (.pageNotPinned f p fr)⟩
        else ⟨setDesc s fr
          (if d then
            { getDesc s fr with pinCnt := (getDesc s fr).pinCnt - 1, dirty := true }
          else
            { getDesc s fr with pinCnt := (getDesc s fr).pinCnt - 1 }), .ok ()⟩ := by
      unfold BufMgr.unPinPage
      rw [hl]
    rw [hred]
    by_cases hp : (getDesc s fr).pinCnt = 0
    · rw [if_pos hp]
      exact h
    · rw [if_neg hp]
      have hval : (getDesc s fr).valid = true := (h.2.2 _ _ _ hl).1
      split
      · exact Inv_setDesc_validKeep s fr _ (by simp [hval]) rfl rfl h
      · exact Inv_setDesc_validKeep s fr _ (by simp [hval]) rfl rfl h

/-- `BufMgr.allocPage` preserves the invariant. -/
theorem allocPage_inv (s : BufMgr) (f ki : Nat) (pin : Option Nat) (np : Nat) (h : Inv s) :
    Inv (BufMgr.allocPage s f ki pin np).st := by
  unfold BufMgr.allocPage
  obtain ⟨hInvA, hnb, hprops⟩ := allocBuf_ok s h
  cases hres : (s.allocBuf).res with
  | error e => simpa [hres] using hInvA
  | ok fr =>
    obtain ⟨hpin, hclear, hlt⟩ := hprops fr hres
    simp only [hres]
    exact Inv_install (s.allocBuf).st fr f ki _ hInvA (by rw [hclear]; rfl) (by omega)

/-- Clearing an invalid frame after removing any key from the index
preserves the invariant. -/
theorem Inv_clearFrame_invalid_removed (s : BufMgr) (i : Nat) (f : Option Nat) (p : Nat)
    (hinv : (getDesc s i).valid = false) (h : Inv s) :
    Inv (setDesc { s with hashTable := htRemove s.hashTable f p } i BufDesc.clear0) := by
  apply Inv_clearFrame _ i ?_ (Inv_removeKey s f p h)
  intro f' p' hl
  rw [show ({ s with hashTable := htRemove s.hashTable f p } : BufMgr).hashTable
      = htRemove s.hashTable f p from rfl, htLookup_remove] at hl
  split at hl
  · exact absurd hl (by simp)
  · have hprops := h.2.2 f' p' i hl
    rw [hinv] at hprops
    exact absurd hprops.1 (by simp)

/-- Each step of the `flushFile` scan preserves the invariant. -/
theorem flushLoop_inv (file : Nat) (L : List Nat) :
    ∀ (s : BufMgr) (t : List FileOp), Inv s → Inv (flushLoop file L s t).st := by
  induction L with
  | nil =>
    intro s t h
    exact h
  | cons i rest ih =>
    intro s t h
    rw [flushLoop]
    by_cases hf : (getDesc s i).fileId = some file
    · rw [if_pos hf]
      by_cases hp : (getDesc s i).pinCnt ≠ 0
      · rw [if_pos hp]
        exact h
      · rw [if_neg hp]
        by_cases hv : (getDesc s i).valid
        · rw [if_pos hv]
          exact h
        · rw [if_neg hv]
          apply ih
          have hInv1 : Inv (if (getDesc s i).dirty then
              setDesc s i { getDesc s i with dirty := false } else s) := by
            split
            · exact Inv_setDesc_preserve s i _ rfl rfl rfl rfl h
            · exact h
          have hinv1 : (getDesc (if (getDesc s i).dirty then
              setDesc s i { getDesc s i with dirty := false } else s) i).valid = false := by
            split
            · rw [getDesc_setDesc]
              split
              · simpa using hv
              · simpa using hv
            · simpa using hv
          exact Inv_clearFrame_invalid_removed _ i (some file) (getDesc s i).pageNo hinv1 hInv1
    · rw [if_neg hf]
      exact ih s t h

/-- `BufMgr.flushFile` preserves the invariant, whether it succeeds or
raises. -/
theorem flushFile_inv (s : BufMgr) (f : Nat) (h : Inv s) :
    Inv (BufMgr.flushFile s f).st :=
  flushLoop_inv f (List.range s.numBufs) s [] h

/-- `BufMgr.disposePage` preserves the invariant. -/
theorem disposePage_inv (s : BufMgr) (f p : Nat) (h : Inv s) :
    Inv (BufMgr.disposePage s f p).st := by
  unfold BufMgr.disposePage
  cases hl : htLookup s.hashTable (some f) p with
  | none => exact h
  | some fr =>
    apply Inv_clearFrame _ fr ?_ (Inv_removeKey s (some f) p h)
    intro f' p' hl'
    rw [show ({ s with hashTable := htRemove s.hashTable (some f) p } : BufMgr).hashTable
        = htRemove s.hashTable (some f) p from rfl, htLookup_remove] at hl'
    split at hl'
    · exact absurd hl' (by simp)
    · next hne =>
      have hprops := h.2.2 f' p' fr hl'
      have hkey := h.2.2 (some f) p fr hl
      apply hne
      rw [← hprops.2.1, ← hprops.2.2, hkey.2.1, hkey.2.2]

/-- A freshly constructed pool of positive capacity satisfies the
invariant. -/
theorem init_inv (n : Nat) (h : 0 < n) : Inv (BufMgr.init n) := by
  have hget : ∀ i, getDesc (BufMgr.init n) i = BufDesc.clear0 := by
    intro i
    unfold getDesc BufMgr.init
    by_cases hi : i < n
    · rw [List.getD_eq_getElem _ _ (by simpa using hi)]
      simp
    · rw [List.getD_eq_default _ _ (by simpa using Nat.le_of_not_lt hi)]
      rfl
  refine ⟨⟨by simp [BufMgr.init], h, by simp [BufMgr.init]; omega⟩, ?_, ?_⟩
  · intro i _
    rw [hget i]
    rfl
  · intro f p fr hl
    exact absurd hl (by simp [BufMgr.init, htLookup])

/-- Every state reachable through the public interface satisfies the
invariant. -/
theorem reachable_inv (s : BufMgr) (h : Reachable s) : Inv s := by
  induction h with
  | init n hn => exact init_inv n hn
  | read s f p pin _ ih => exact readPage_inv s f p pin ih
  | unpin s f p d _ ih => exact unPinPage_inv s f p d ih
  | allocP s f ki pin np _ ih => exact allocPage_inv s f ki pin np ih
  | flush s f _ ih => exact flushFile_inv s f ih
  | dispose s f p _ ih => exact disposePage_inv s f p ih

/-- Claim C1.  On an index hit `readPage` does set `refBit`, increment the
pin count and touch no file, but it does **not** return a handle to the
content slot: the early `return;` at line 149 of the source skips the
`page = &bufPool[frameId]` assignment at line 167, so the `page`
out-parameter keeps whatever value the caller passed in (here `none`, and
`some 7` when the caller's stale pointer is `some 7`), instead of the
cached page's slot `some 0`. -/
theorem C1_hit_out_param_not_set :
    htLookup cachedOne.hashTable (some 0) 5 = some 0 ∧
    (cachedOne.readPage 0 5 none).res = Except.ok () ∧
    (cachedOne.readPage 0 5 none).trace = [] ∧
    (getDesc (cachedOne.readPage 0 5 none).st 0).pinCnt = 2 ∧
    (getDesc (cachedOne.readPage 0 5 none).st 0).refbit = true ∧
    (cachedOne.readPage 0 5 none).page = none ∧
    (cachedOne.readPage 0 5 (some 7)).page = some 7 := by decide

/-- Claim C2.  `allocPage` on a pool of size 1 with incoming `pageNo = 99`
while the file assigns fresh page number 1: the returned page number is 1,
but the index entry and the frame metadata are keyed by the stale incoming
99 (the source inserts and `Set`s at lines 266-267 before the
`pageNo = new_page.page_number()` assignment at line 270), so an
immediately following `fetchPage` of the returned number misses the index
(and here, with the lone frame pinned, even fails with
`BufferExceededException`) instead of hitting. -/
theorem C2_alloc_installs_stale_key :
    ((BufMgr.init 1).allocPage 0 99 none 1).pageNo = 1 ∧
    htLookup ((BufMgr.init 1).allocPage 0 99 none 1).st.hashTable (some 0) 1 = none ∧
    htLookup ((BufMgr.init 1).allocPage 0 99 none 1).st.hashTable (some 0) 99 = some 0 ∧
    (getDesc ((BufMgr.init 1).allocPage 0 99 none 1).st 0).pageNo = 99 ∧
    (((BufMgr.init 1).allocPage 0 99 none 1).st.readPage 0 1 none).res =
      Except.error .bufferExceeded := by decide

/-- Claim C3.  `flushFile` on a file whose only cached frame is valid and
*unpinned* does not flush it: it raises `BadBufferException` (line 227 of
the source tests `if (bufDescTable[i].valid)` — inverted against its own
doc comment at line 211) and leaves the state untouched, where the claim
requires the call to succeed and empty the pool of the file's frames. -/
theorem C3_flush_error_on_valid_frame :
    cachedOneUnpinned.numBufs = 1 ∧
    (getDesc cachedOneUnpinned 0).fileId = some 0 ∧
    (getDesc cachedOneUnpinned 0).valid = true ∧
    (getDesc cachedOneUnpinned 0).pinCnt = 0 ∧
    (cachedOneUnpinned.flushFile 0).res = Except.error (.badBuffer 0 false true true) ∧
    (cachedOneUnpinned.flushFile 0).st = cachedOneUnpinned := by decide

/-- Claim C4.  In `pool3TwoPinned` (reached purely through public
operations) only frames 1 and 2 of the 3-frame pool are pinned, and frame
0 is valid, unpinned, and becomes unreferenced after its single refbit
grace pass — yet requesting an uncached page fails with
`BufferExceededException`: the `pinned` counter of `allocBuf` accumulates
pinned visits across sweeps (lines 98-106) instead of within a single
sweep, so it reaches `numBufs` before the hand returns to the now-eligible
frame 0.  The final conjunct certifies that the scan loop itself produced
the failure (its fuel was not exhausted). -/
theorem C4_exhaustion_false_positive :
    pool3TwoPinned.numBufs = 3 ∧
    (getDesc pool3TwoPinned 0).valid = true ∧
    (getDesc pool3TwoPinned 0).pinCnt = 0 ∧
    (getDesc pool3TwoPinned 1).pinCnt = 1 ∧
    (getDesc pool3TwoPinned 2).pinCnt = 1 ∧
    (pool3TwoPinned.allocBuf).res = Except.error .bufferExceeded ∧
    (pool3TwoPinned.readPage 0 6 none).res = Except.error .bufferExceeded ∧
    (allocBufLoop (2 * pool3TwoPinned.numBufs + 1) pool3TwoPinned.advanceClock 0).isSome =
      true := by decide

/-- Claim C5.  `flushFile` on a file that has a pinned frame (frame 1,
`pinCnt = 1`) does perform no write, but it does not fail with
`PagePinnedException`: the valid unpinned frame 0 is scanned first and the
inverted validity test of line 227 raises `BadBufferException` instead. -/
theorem C5_flush_pinned_wrong_error :
    (getDesc pool2OnePinned 1).fileId = some 0 ∧
    (getDesc pool2OnePinned 1).pinCnt = 1 ∧
    (pool2OnePinned.flushFile 0).trace = [] ∧
    (pool2OnePinned.flushFile 0).res = Except.error (.badBuffer 0 false true true) := by decide

/-- Claim C6.  A public `flushFile` call on a reachable state propagates
`BadBufferException` to the caller — an error kind outside the documented
public set {`PoolExhausted`, `PageNotPinned`, `PagePinned`}. -/
theorem C6_nonpublic_error_escapes :
    (pool2OnePinned.flushFile 0).res = Except.error (.badBuffer 0 false true true) ∧
    BufError.isPublicKind (.badBuffer 0 false true true) = false := by decide

/-! ## Claims C7 – C10 -/

/-- Reduction of `readPage` on an index hit. -/
theorem readPage_hit (s : BufMgr) (f p : Nat) (pin : Option Nat) (fr : Nat)
    (hl : htLookup s.hashTable (some f) p = some fr) :
    BufMgr.readPage s f p pin =
      ⟨setDesc s fr
        { getDesc s fr with refbit := true, pinCnt := (getDesc s fr).pinCnt + 1 }
      , pin, [], .ok ()⟩ := by
  unfold BufMgr.readPage
  rw [hl]

/-- Reduction of `unPinPage` on an index hit. -/
theorem unPinPage_found (s : BufMgr) (f p fr : Nat) (d : Bool)
    (hl : htLookup s.hashTable (some f) p = some fr) :
    BufMgr.unPinPage s f p d =
      if (getDesc s fr).pinCnt = 0 then ⟨s, .error (.pageNotPinned f p fr)⟩
      else ⟨setDesc s fr
        (if d then
          { getDesc s fr with pinCnt := (getDesc s fr).pinCnt - 1, dirty := true }
        else
          { getDesc s fr with pinCnt := (getDesc s fr).pinCnt - 1 }), .ok ()⟩ := by
  unfold BufMgr.unPinPage
  rw [hl]

/-- Claim C7.  Eviction safety: in every state reachable through the
public manager interface (so under no sequence of manager operations can
this fail), a frame that `allocBuf` returns as a victim has `pinCnt = 0`
in the state the call started from — pin counts are not modified by the
scan, so this is the pin count at the moment of selection.  A pinned frame
is therefore never evicted or reused for another page. -/
theorem C7_victim_unpinned (s : BufMgr) (fr : Nat) (hr : Reachable s)
    (hok : (s.allocBuf).res = .ok fr) : (getDesc s fr).pinCnt = 0 :=
  ((allocBuf_ok s (reachable_inv s hr)).2.2 fr hok).1

/-- Witness for C7 at the freshly constructed pool of size 1, whose
`allocBuf` returns frame 0. -/
theorem C7_victim_unpinned_witness : (getDesc (BufMgr.init 1) 0).pinCnt = 0 :=
  C7_victim_unpinned (BufMgr.init 1) 0 (Reachable.init 1 (by decide)) (by decide)

/-- Pin accounting along a run of `fetchPage`/`unpinPage` calls on one
cached page: if the run raises nothing, the final pin count plus the
number of unpins equals the initial pin count plus the number of
fetches. -/
theorem runPinOps_count (f p : Nat) (ops : List PinOp) :
    ∀ (s s' : BufMgr) (fr : Nat),
      htLookup s.hashTable (some f) p = some fr →
      (getDesc s fr).valid = true →
      fr < s.bufDescTable.length →
      runPinOps f p ops s = some s' →
      (getDesc s' fr).pinCnt + countOp PinOp.unpin ops =
        (getDesc s fr).pinCnt + countOp PinOp.fetch ops := by
  induction ops with
  | nil =>
    intro s s' fr _ _ _ hrun
    injection hrun with hrun
    subst hrun
    rfl
  | cons op rest ih =>
    intro s s' fr hl hv hlt hrun
    cases op with
    | fetch =>
      simp only [runPinOps, readPage_hit s f p none fr hl] at hrun
      have hd1 : getDesc (setDesc s fr
          { getDesc s fr with refbit := true, pinCnt := (getDesc s fr).pinCnt + 1 }) fr =
          { getDesc s fr with refbit := true, pinCnt := (getDesc s fr).pinCnt + 1 } := by
        rw [getDesc_setDesc, if_pos ⟨rfl, hlt⟩]
      have hl1 : htLookup (setDesc s fr
          { getDesc s fr with refbit := true, pinCnt := (getDesc s fr).pinCnt + 1
          }).hashTable (some f) p = some fr := by
        rw [setDesc_hashTable]
        exact hl
      have hlt1 : fr < (setDesc s fr
          { getDesc s fr with refbit := true, pinCnt := (getDesc s fr).pinCnt + 1
          }).bufDescTable.length := by
        rw [setDesc_length]
        exact hlt
      have hrec := ih _ s' fr hl1 (by rw [hd1]; exact hv) hlt1 hrun
      rw [hd1] at hrec
      rw [show ({ getDesc s fr with refbit := true, pinCnt := (getDesc s fr).pinCnt + 1 } : BufDesc).pinCnt = (getDesc s fr).pinCnt + 1 from rfl] at hrec
      have hcu : countOp PinOp.unpin (PinOp.fetch :: rest) =
          0 + countOp PinOp.unpin rest := by
        rw [countOp, if_neg (by decide)]
      have hcf : countOp PinOp.fetch (PinOp.fetch :: rest) =
          1 + countOp PinOp.fetch rest := by
        rw [countOp, if_pos rfl]
      rw [hcu, hcf]
      omega
    | unpin =>
      have hpin : (getDesc s fr).pinCnt ≠ 0 := by
        intro h0
        rw [show runPinOps f p (PinOp.unpin :: rest) s =
            (match BufMgr.unPinPage s f p false with
             | ⟨s1, .ok _⟩ => runPinOps f p rest s1
             | ⟨_, .error _⟩ => none) from rfl,
          unPinPage_found s f p fr false hl, if_pos h0] at hrun
        exact absurd hrun (by simp)
      rw [show runPinOps f p (PinOp.unpin :: rest) s =
          (match BufMgr.unPinPage s f p false with
           | ⟨s1, .ok _⟩ => runPinOps f p rest s1
           | ⟨_, .error _⟩ => none) from rfl,
        unPinPage_found s f p fr false hl, if_neg hpin] at hrun
      have hd1 : getDesc (setDesc s fr
          { getDesc s fr with pinCnt := (getDesc s fr).pinCnt - 1 }) fr =
          { getDesc s fr with pinCnt := (getDesc s fr).pinCnt - 1 } := by
        rw [getDesc_setDesc, if_pos ⟨rfl, hlt⟩]
      have hl1 : htLookup (setDesc s fr
          { getDesc s fr with pinCnt := (getDesc s fr).pinCnt - 1 }).hashTable
          (some f) p = some fr := by
        rw [setDesc_hashTable]
        exact hl
      have hlt1 : fr < (setDesc s fr
          { getDesc s fr with pinCnt := (getDesc s fr).pinCnt - 1
          }).bufDescTable.length := by
        rw [setDesc_length]
        exact hlt
      have hrec := ih _ s' fr hl1 (by rw [hd1]; exact hv) hlt1 hrun
      rw [hd1] at hrec
      rw [show ({ getDesc s fr with pinCnt := (getDesc s fr).pinCnt - 1 } : BufDesc).pinCnt = (getDesc s fr).pinCnt - 1 from rfl] at hrec
      have hcu : countOp PinOp.unpin (PinOp.unpin :: rest) =
          1 + countOp PinOp.unpin rest := by
        rw [countOp, if_pos rfl]
      have hcf : countOp PinOp.fetch (PinOp.unpin :: rest) =
          0 + countOp PinOp.fetch rest := by
        rw [countOp, if_neg (by decide)]
      rw [hcu, hcf]
      omega

/-- Claim C8.  The full `unpinPage` contract: an index miss is a silent
no-op; a cached page with pin count zero raises `PageNotPinnedException`;
otherwise the pin count is decremented and the dirty bit becomes
`markDirty || old` — set unconditionally when `markDirty` holds and never
cleared — with the index untouched; and over every non-raising sequence of
`fetchPage`/`unpinPage` calls on one cached page, final pin count + #unpins
= initial pin count + #fetches. -/
theorem C8_unpin_contract (s : BufMgr) (f p : Nat) (d : Bool) :
    (htLookup s.hashTable (some f) p = none →
      BufMgr.unPinPage s f p d = ⟨s, .ok ()⟩) ∧
    (∀ fr, htLookup s.hashTable (some f) p = some fr → (getDesc s fr).pinCnt = 0 →
      BufMgr.unPinPage s f p d = ⟨s, .error (.pageNotPinned f p fr)⟩) ∧
    (∀ fr, htLookup s.hashTable (some f) p = some fr → (getDesc s fr).pinCnt ≠ 0 →
      (BufMgr.unPinPage s f p d).res = .ok () ∧
      (getDesc (BufMgr.unPinPage s f p d).st fr).pinCnt = (getDesc s fr).pinCnt - 1 ∧
      (getDesc (BufMgr.unPinPage s f p d).st fr).dirty = (d || (getDesc s fr).dirty) ∧
      (BufMgr.unPinPage s f p d).st.hashTable = s.hashTable) ∧
    (∀ (ops : List PinOp) (fr : Nat) (s' : BufMgr),
      htLookup s.hashTable (some f) p = some fr →
      (getDesc s fr).valid = true →
      fr < s.bufDescTable.length →
      runPinOps f p ops s = some s' →
      (getDesc s' fr).pinCnt + countOp PinOp.unpin ops =
        (getDesc s fr).pinCnt + countOp PinOp.fetch ops) := by
  refine ⟨?_, ?_, ?_, ?_⟩
  · intro hl
    unfold BufMgr.unPinPage
    rw [hl]
  · intro fr hl hp
    rw [unPinPage_found s f p fr d hl, if_pos hp]
  · intro fr hl hp
    have hlt : fr < s.bufDescTable.length := by
      by_contra hge
      apply hp
      unfold getDesc
      rw [List.getD_eq_default _ _ (Nat.le_of_not_lt (by simpa using hge))]
      rfl
    rw [unPinPage_found s f p fr d hl, if_neg hp]
    refine ⟨rfl, ?_, ?_, by rw [setDesc_hashTable]⟩
    · rw [show (getDesc (setDesc s fr (if d then
          { getDesc s fr with pinCnt := (getDesc s fr).pinCnt - 1, dirty := true }
        else
          { getDesc s fr with pinCnt := (getDesc s fr).pinCnt - 1 })) fr) =
          (if d then
            { getDesc s fr with pinCnt := (getDesc s fr).pinCnt - 1, dirty := true }
          else
            { getDesc s fr with pinCnt := (getDesc s fr).pinCnt - 1 }) from by
        rw [getDesc_setDesc, if_pos ⟨rfl, hlt⟩]]
      cases d <;> rfl
    · rw [show (getDesc (setDesc s fr (if d then
          { getDesc s fr with pinCnt := (getDesc s fr).pinCnt - 1, dirty := true }
        else
          { getDesc s fr with pinCnt := (getDesc s fr).pinCnt - 1 })) fr) =
          (if d then
            { getDesc s fr with pinCnt := (getDesc s fr).pinCnt - 1, dirty := true }
          else
            { getDesc s fr with pinCnt := (getDesc s fr).pinCnt - 1 }) from by
        rw [getDesc_setDesc, if_pos ⟨rfl, hlt⟩]]
      cases d <;> rfl
  · intro ops fr s' hl hv hlt hrun
    exact runPinOps_count f p ops s s' fr hl hv hlt hrun

/-- Witness for C8, exercising all four conjuncts: the no-op miss on an
empty pool; the decrement + sticky-dirty behaviour on a cached pinned
page; and the pin count after fetch, fetch, unpin on a page cached with
pin count 1 (final pin 2: 2 + 1 = 1 + 2). -/
theorem C8_unpin_contract_witness :
    (BufMgr.unPinPage (BufMgr.init 1) 0 0 false = ⟨BufMgr.init 1, .ok ()⟩) ∧
    ((BufMgr.unPinPage cachedOne 0 5 true).res = .ok () ∧
      (getDesc (BufMgr.unPinPage cachedOne 0 5 true).st 0).pinCnt = 0 ∧
      (getDesc (BufMgr.unPinPage cachedOne 0 5 true).st 0).dirty = true ∧
      (BufMgr.unPinPage cachedOne 0 5 true).st.hashTable = cachedOne.hashTable) ∧
    ((getDesc (⟨1,
        [⟨some 0, 5, true, true, false, 2⟩], [⟨5⟩], [((some 0, 5), 0)], 0⟩ : BufMgr) 0).pinCnt
        + countOp PinOp.unpin [PinOp.fetch, PinOp.fetch, PinOp.unpin] =
      (getDesc cachedOne 0).pinCnt
        + countOp PinOp.fetch [PinOp.fetch, PinOp.fetch, PinOp.unpin]) := by
  refine ⟨(C8_unpin_contract (BufMgr.init 1) 0 0 false).1 (by decide), ?_, ?_⟩
  · have h3 := (C8_unpin_contract cachedOne 0 5 true).2.2.1 0 (by decide) (by decide)
    exact ⟨h3.1, by rw [h3.2.1]; decide, by rw [h3.2.2.1]; decide, h3.2.2.2⟩
  · exact (C8_unpin_contract cachedOne 0 5 false).2.2.2
      [PinOp.fetch, PinOp.fetch, PinOp.unpin] 0 _ (by decide) (by decide) (by decide)
      (by decide)

/-- Claim C9.  `disposePage` always calls `file->deletePage` exactly once
and never writes; when the page is cached its index entry is removed and
its frame reset to the cleared (invalid) descriptor — independently of its
dirty flag and pin count, since the state is universally quantified — with
all other frames untouched; when it is not cached, the manager state is
unchanged and no error arises (the function is total). -/
theorem C9_dispose_contract (s : BufMgr) (f p : Nat) :
    (BufMgr.disposePage s f p).trace = [FileOp.delete (some f) p] ∧
    (htLookup s.hashTable (some f) p = none → (BufMgr.disposePage s f p).st = s) ∧
    (∀ fr, htLookup s.hashTable (some f) p = some fr →
      htLookup (BufMgr.disposePage s f p).st.hashTable (some f) p = none ∧
      getDesc (BufMgr.disposePage s f p).st fr = BufDesc.clear0 ∧
      ∀ j, j ≠ fr → getDesc (BufMgr.disposePage s f p).st j = getDesc s j) := by
  cases hl : htLookup s.hashTable (some f) p with
  | none =>
    have hred : BufMgr.disposePage s f p = ⟨s, [FileOp.delete (some f) p]⟩ := by
      unfold BufMgr.disposePage
      rw [hl]
    rw [hred]
    exact ⟨rfl, fun _ => rfl, fun fr hcontra => absurd hcontra (by simp)⟩
  | some fr0 =>
    have hred : BufMgr.disposePage s f p =
        ⟨setDesc { s with hashTable := htRemove s.hashTable (some f) p } fr0
          BufDesc.clear0, [FileOp.delete (some f) p]⟩ := by
      unfold BufMgr.disposePage
      rw [hl]
      rfl
    rw [hred]
    refine ⟨rfl, fun hcontra => absurd hcontra (by simp), ?_⟩
    intro fr hfr
    have hfr0 : fr = fr0 := by
      injection hfr with hfr1
      exact hfr1.symm
    subst hfr0
    refine ⟨?_, ?_, ?_⟩
    · rw [setDesc_hashTable,
        show ({ s with hashTable := htRemove s.hashTable (some f) p } : BufMgr).hashTable
          = htRemove s.hashTable (some f) p from rfl,
        htLookup_remove, if_pos rfl]
    · rw [getDesc_setDesc]
      split
      · rfl
      · next hc =>
        unfold getDesc
        rw [List.getD_eq_default]
        · rfl
        · exact Nat.le_of_not_lt (fun hcc => hc ⟨rfl, hcc⟩)
    · intro j hj
      rw [getDesc_setDesc, if_neg (fun hc => hj hc.1)]
      rfl

/-- Witness for C9 on `pool2OnePinned`: page 1 of file 0 is cached in
frame 0; disposing it deletes it from the file exactly once, removes the
index entry, clears frame 0 and leaves frame 1 alone; disposing the
uncached page 9 leaves the state unchanged. -/
theorem C9_dispose_contract_witness :
    (BufMgr.disposePage pool2OnePinned 0 1).trace = [FileOp.delete (some 0) 1] ∧
    htLookup (BufMgr.disposePage pool2OnePinned 0 1).st.hashTable (some 0) 1 = none ∧
    getDesc (BufMgr.disposePage pool2OnePinned 0 1).st 0 = BufDesc.clear0 ∧
    getDesc (BufMgr.disposePage pool2OnePinned 0 1).st 1 = getDesc pool2OnePinned 1 ∧
    (BufMgr.disposePage pool2OnePinned 0 9).st = pool2OnePinned := by
  have hc := (C9_dispose_contract pool2OnePinned 0 1).2.2 0 (by decide)
  exact ⟨(C9_dispose_contract pool2OnePinned 0 1).1, hc.1, hc.2.1,
    hc.2.2 1 (by decide), (C9_dispose_contract pool2OnePinned 0 9).2.1 (by decide)⟩

/-- Claim C10.  `unpinPage` on a cached page whose pin count is zero, with
`markDirty = true`, raises `PageNotPinnedException` and returns the state
object *exactly* as it was: the check precedes every mutation in the
source (lines 186-189), so the dirty flag is not set, the pin count stays
zero and the index entry is untouched. -/
theorem C10_unpin_zero_pin_atomic (s : BufMgr) (f p fr : Nat)
    (hl : htLookup s.hashTable (some f) p = some fr)
    (hp : (getDesc s fr).pinCnt = 0) :
    BufMgr.unPinPage s f p true = ⟨s, .error (.pageNotPinned f p fr)⟩ := by
  rw [unPinPage_found s f p fr true hl, if_pos hp]

/-- Witness for C10: page 1 of file 0 is cached in frame 0 of
`pool2OnePinned` with pin count zero; unpinning it with `markDirty = true`
raises `PageNotPinned` and returns the identical state. -/
theorem C10_unpin_zero_pin_atomic_witness :
    BufMgr.unPinPage pool2OnePinned 0 1 true =
      ⟨pool2OnePinned, .error (.pageNotPinned 0 1 0)⟩ :=
  C10_unpin_zero_pin_atomic pool2OnePinned 0 1 0 (by decide) (by decide)

end BadgerDB
